import Mathlib

/-!
Shallow embedding of `src/command/args/vmaf.rs` (ab-av1): the VMAF
filter-graph synthesizer.  Rust strings are modelled as Lean `String`
(substring and suffix matching are done on their character lists), `u32`
values as `Nat` together with an explicit two's-complement wrap into
`Int` wherever the source performs an `as i32` cast, and the `f64`
divisions and comparison in `minimally_scale` with an exact model of
IEEE-754 binary64 arithmetic for `u32`-valued operands: the `u32 as f64`
casts are exact, the quotient of positive operands is the
round-to-nearest-even rounding of the exact rational quotient to 53
significant bits (always a normal double in this range, so this is the
IEEE division result bit for bit), a positive value divided by zero is
positive infinity, `0/0` is NaN, and every comparison involving NaN is
false.  The environmental query
`thread::available_parallelism().map_or(1, |p| p.get())`
is modelled as an explicit `n_threads` argument to the graph builder.
-/

set_option maxRecDepth 100000

namespace AbAv1

/-- Decides whether `pat` occurs as a contiguous sublist, mirroring Rust
`str::contains` on the character level. -/
def charsHaveSublist (pat : List Char) : List Char → Bool
  | [] => pat.isEmpty
  | c :: rest => pat.isPrefixOf (c :: rest) || charsHaveSublist pat rest

/-- Embeds Rust `str::contains(pat)` for string patterns. -/
def hasSubstr (s pat : String) : Bool :=
  charsHaveSublist pat.toList s.toList

/-- Embeds Rust `str::ends_with(pat)`. -/
def strEndsWith (s pat : String) : Bool :=
  pat.toList.isSuffixOf s.toList

/-- Modelled from the spec: the `PixelFormat` enum is declared outside the
provided source file (`crate::command::args::PixelFormat`); the spec
describes it as an enumerated pixel-format value (8-bit 4:2:0, 10-bit
4:2:0, ...).  The display names are the ffmpeg names used by the
repository's own tests (`yuv420p`, `yuv420p10le`). -/
inductive PixelFormat
  | yuv420p
  | yuv420p10le
  | yuv444p10le
  deriving DecidableEq

/-- Display form of a pixel format as interpolated into the filter graph. -/
def PixelFormat.display : PixelFormat → String
  | PixelFormat.yuv420p => "yuv420p"
  | PixelFormat.yuv420p10le => "yuv420p10le"
  | PixelFormat.yuv444p10le => "yuv444p10le"

/-- Embeds `enum VmafScale { None, Auto, Custom { width: u32, height: u32 } }`. -/
inductive VmafScale
  | none
  | auto
  | custom (width height : Nat)
  deriving DecidableEq

/-- Embeds `enum VmafModel { Vmaf1K, Vmaf4K, Custom }`; `Vmaf1K` carries the
`#[default]` attribute in the source. -/
inductive VmafModel
  | vmaf1K
  | vmaf4K
  | custom
  deriving DecidableEq

/-- Embeds `struct Vmaf`, the validated option set. -/
structure Vmaf where
  vmaf_args : List String
  vmaf_scale : VmafScale
  reference_vfilter : Option String
  cuda : Bool
  deriving DecidableEq

/-- Embeds `Vmaf::is_default`. -/
def Vmaf.is_default (self : Vmaf) : Bool :=
  self.vmaf_args.isEmpty && self.vmaf_scale == VmafScale.auto
    && self.reference_vfilter.isNone && !self.cuda

/-- Two's-complement wrap of a `u32` value into `i32`, the semantics of the
Rust `as i32` casts (`width as _`, `target_w as _`, ...) in the source. -/
def u32AsI32 (x : Nat) : Int :=
  if x < 2 ^ 31 then (x : Int) else (x : Int) - 2 ^ 32

/-- Fuel-driven binary logarithm: `log2Fuel fuel n` equals `⌊log2 n⌋`
whenever `1 ≤ n < 2 ^ fuel` (structural recursion on the fuel keeps it
kernel-computable). -/
def log2Fuel : Nat → Nat → Nat
  | 0, _ => 0
  | fuel + 1, n => if 2 ≤ n then log2Fuel fuel (n / 2) + 1 else 0

/-- Floor of the binary logarithm for the operand sizes arising here
(arguments stay below `2 ^ 128`). -/
def natLog2 (n : Nat) : Nat := log2Fuel 128 n

/-- The binary exponent of the quotient `a / b`, biased by 64: for
`u32`-range operands this is `⌊log2 (a / b)⌋ + 64`, computed as
`⌊log2 ⌊a * 2 ^ 64 / b⌋⌋`. -/
def f64Exp (a b : Nat) : Nat := natLog2 (a * 2 ^ 64 / b)

/-- The 53-bit significand of the IEEE-754 binary64 rounding of `a / b`:
the exact quotient is scaled into `[2 ^ 52, 2 ^ 53)` and rounded to the
nearest integer, ties to even. -/
def f64Sig (a b : Nat) : Nat :=
  let N := a * 2 ^ (116 - f64Exp a b)
  let q := N / b
  let r := N % b
  if b < 2 * r ∨ (2 * r = b ∧ q % 2 = 1) then q + 1 else q

/-- The value of the IEEE-754 binary64 quotient of positive operands
`a / b`: the rounded significand times the appropriate power of two.  For
`u32`-range operands the result is a normal double (no subnormals, no
overflow), so this is exactly the value Rust computes for
`a as f64 / b as f64`. -/
def roundF64Pos (a b : Nat) : ℚ :=
  if 116 ≤ f64Exp a b then ((f64Sig a b * 2 ^ (f64Exp a b - 116) : Nat) : ℚ)
  else mkRat (f64Sig a b) (2 ^ (116 - f64Exp a b))

/-- The `f64` values arising in `minimally_scale`: NaN, positive infinity,
or a nonnegative finite double represented by its exact rational value. -/
inductive F64
  | nan
  | inf
  | fin (q : ℚ)
  deriving DecidableEq

/-- IEEE-754 binary64 division of two `u32`-valued operands (Rust
`a as f64 / b as f64`): `0/0` is NaN, a positive value over zero is
positive infinity, zero over a positive value is zero, and otherwise the
correctly rounded positive quotient. -/
def divF64 (a b : Nat) : F64 :=
  if b = 0 then (if a = 0 then F64.nan else F64.inf)
  else if a = 0 then F64.fin 0
  else F64.fin (roundF64Pos a b)

/-- The `f64` comparison `x > y` with IEEE semantics: any comparison
involving NaN is false, and infinity exceeds every finite value. -/
def F64.gt (x y : F64) : Bool :=
  match x, y with
  | F64.nan, _ => false
  | _, F64.nan => false
  | F64.inf, F64.inf => false
  | F64.inf, F64.fin _ => true
  | F64.fin _, F64.inf => false
  | F64.fin p, F64.fin q => decide (q < p)

/-- Embeds `minimally_scale`.  The source computes
`w_factor = from_w as f64 / target_w as f64` and
`h_factor = from_h as f64 / target_h as f64` and compares them; the `f64`
arithmetic is modelled exactly by `divF64`/`F64.gt`, and the emitted fixed
dimension passes through the `u32 as i32` cast. -/
def minimally_scale (fromRes target : Nat × Nat) : Int × Int :=
  let w_factor := divF64 fromRes.1 target.1
  let h_factor := divF64 fromRes.2 target.2
  if F64.gt h_factor w_factor then
    (-1, u32AsI32 target.2)
  else
    (u32AsI32 target.1, -1)

/-- Embeds `Vmaf::vf_scale`. -/
def Vmaf.vf_scale (self : Vmaf) (model : VmafModel)
    (distorted_res : Option (Nat × Nat)) : Option (Int × Int) :=
  match self.vmaf_scale, distorted_res with
  | VmafScale.auto, some (w, h) =>
    match model with
    | VmafModel.vmaf1K =>
      if w < 1728 ∧ h < 972 then some (minimally_scale (w, h) (1920, 1080)) else none
    | VmafModel.vmaf4K =>
      if w < 3456 ∧ h < 1944 then some (minimally_scale (w, h) (3840, 2160)) else none
    | VmafModel.custom => none
  | VmafScale.custom width height, some (w, h) =>
    some (minimally_scale (w, h) (width, height))
  | VmafScale.custom width height, none =>
    some (u32AsI32 width, u32AsI32 height)
  | _, _ => none

/-- Embeds `VmafModel::from_args`: filter the tokens containing `"model"`
and classify by length and suffix. -/
def VmafModel.from_args (args : List String) : Option VmafModel :=
  match args.filter (fun v => hasSubstr v "model") with
  | [] => none
  | [v] =>
    some (if strEndsWith v "version=vmaf_v0.6.1" then VmafModel.vmaf1K
      else if strEndsWith v "version=vmaf_4k_v0.6.1" then VmafModel.vmaf4K
      else VmafModel.custom)
  | _ => some VmafModel.custom

/-- Panic-aware embedding of `VmafModel::from_args`: the source matches on
the length of the filtered vector and then calls `remove(0)`, which would
panic on an empty vector; that call is modelled with `List.head?`, so a
hypothetical panic surfaces as `none`. -/
def VmafModel.from_argsChecked (args : List String) : Option (Option VmafModel) :=
  let matched := args.filter (fun v => hasSubstr v "model")
  match matched.length with
  | 0 => some none
  | 1 =>
    matched.head?.map (fun v =>
      some (if strEndsWith v "version=vmaf_v0.6.1" then VmafModel.vmaf1K
        else if strEndsWith v "version=vmaf_4k_v0.6.1" then VmafModel.vmaf4K
        else VmafModel.custom))
  | _ => some (some VmafModel.custom)

/-- Embeds the first block of `Vmaf::ffmpeg_lavfi`: clone `vmaf_args` and,
when not in cuda mode and no token mentions `n_threads`, append the default
thread-count token.  `n_threads` stands for the value of
`thread::available_parallelism().map_or(1, |p| p.get())`. -/
def Vmaf.augmentedArgs (self : Vmaf) (n_threads : Nat) : List String :=
  if !self.cuda && !(self.vmaf_args.any fun a => hasSubstr a "n_threads") then
    self.vmaf_args ++ ["n_threads=" ++ toString n_threads]
  else
    self.vmaf_args

/-- Embeds the libvmaf invocation part of the string: the filter name with
its fixed quality/sync parameters, followed by the `:`-joined argument list. -/
def Vmaf.lavfiBase (self : Vmaf) (n_threads : Nat) : String :=
  (if self.cuda then "libvmaf_cuda=shortest=true:ts_sync_mode=nearest:"
   else "libvmaf=shortest=true:ts_sync_mode=nearest:")
  ++ String.intercalate ":" (self.augmentedArgs n_threads)

/-- Embeds the model-defaulting step of `Vmaf::ffmpeg_lavfi`: when the model
is unresolved and the distorted resolution exceeds 2560x1440, the model
becomes `Vmaf4K` and the 4k model token must be appended (second component). -/
def resolveStep (model : Option VmafModel) (distorted_res : Option (Nat × Nat)) :
    Option VmafModel × Bool :=
  match model, distorted_res with
  | none, some (w, h) =>
    if 2560 < w ∧ 1440 < h then (some VmafModel.vmaf4K, true) else (none, false)
  | m, _ => (m, false)

/-- Comma normalization applied by `Vmaf::ffmpeg_lavfi` to a present
reference filter: a filter already ending in a comma is kept, otherwise one
comma is appended. -/
def commaTerminated (vf : String) : String :=
  if strEndsWith vf "," then vf else vf ++ ","

/-- Embeds the effective reference-side pre-filter computation
(`self.reference_vfilter.as_deref().or(ref_vfilter)` followed by comma
normalization; the empty string when neither is present). -/
def Vmaf.refVf (self : Vmaf) (ref_vfilter : Option String) : String :=
  match self.reference_vfilter with
  | some vf => commaTerminated vf
  | none =>
    match ref_vfilter with
    | some vf => commaTerminated vf
    | none => ""

/-- Embeds the pixel-format step: cuda mode coerces any format other than
`yuv420p` to `yuv420p`; otherwise the caller's format is used. -/
def Vmaf.effPixFmt (self : Vmaf) (pix_fmt : PixelFormat) : PixelFormat :=
  if self.cuda then
    (if pix_fmt ≠ PixelFormat.yuv420p then PixelFormat.yuv420p else pix_fmt)
  else
    pix_fmt

/-- The fixed timestamp-fixation chain of the source. -/
def pts_fixiation : String := "settb=AVTB,setpts=N/FRAME_RATE/TB"

/-- Embeds the two-stream graph prelude of `Vmaf::ffmpeg_lavfi`, given the
resolved model (after the 4k-defaulting step). -/
def Vmaf.graphPreM (self : Vmaf) (model : Option VmafModel)
    (distorted_res : Option (Nat × Nat)) (pix_fmt : PixelFormat)
    (ref_vfilter : Option String) : String :=
  let ref_vf := self.refVf ref_vfilter
  let pf := (self.effPixFmt pix_fmt).display
  match self.vf_scale (model.getD VmafModel.vmaf1K) distorted_res with
  | some (w, h) =>
    if self.cuda then
      "[0:v]scale_cuda=format=" ++ pf ++ ":w=" ++ toString w ++ ":h=" ++ toString h
        ++ ":interp_algo=bicubic," ++ pts_fixiation ++ "[dis];[1:v]scale_cuda=format="
        ++ pf ++ ":w=" ++ toString w ++ ":h=" ++ toString h ++ ":interp_algo=bicubic,"
        ++ ref_vf ++ pts_fixiation ++ "[ref];[dis][ref]"
    else
      "[0:v]format=" ++ pf ++ ",scale=" ++ toString w ++ ":" ++ toString h
        ++ ":flags=bicubic," ++ pts_fixiation ++ "[dis];[1:v]format=" ++ pf ++ ","
        ++ ref_vf ++ "scale=" ++ toString w ++ ":" ++ toString h ++ ":flags=bicubic,"
        ++ pts_fixiation ++ "[ref];[dis][ref]"
  | none =>
    if self.cuda then
      "[0:v]scale_cuda=format=" ++ pf ++ "," ++ pts_fixiation
        ++ "[dis];[1:v]scale_cuda=format=" ++ pf ++ "," ++ ref_vf ++ pts_fixiation
        ++ "[ref];[dis][ref]"
    else
      "[0:v]format=" ++ pf ++ "," ++ pts_fixiation ++ "[dis];[1:v]format=" ++ pf
        ++ "," ++ ref_vf ++ pts_fixiation ++ "[ref];[dis][ref]"

/-- Assembles the final filter-graph string from a given initially resolved
model: apply the 4k-defaulting step, build the prelude, and append the
libvmaf parameter string plus the optional 4k-model token. -/
def Vmaf.assembleWith (self : Vmaf) (n_threads : Nat)
    (distorted_res : Option (Nat × Nat)) (pix_fmt : PixelFormat)
    (ref_vfilter : Option String) (model0 : Option VmafModel) : String :=
  let step := resolveStep model0 distorted_res
  self.graphPreM step.1 distorted_res pix_fmt ref_vfilter
    ++ self.lavfiBase n_threads
    ++ (if step.2 then ":model=version=vmaf_4k_v0.6.1" else "")

/-- Embeds `Vmaf::ffmpeg_lavfi` (with `n_threads` standing for the detected
available parallelism, 1 on detection failure). -/
def Vmaf.ffmpeg_lavfi (self : Vmaf) (n_threads : Nat)
    (distorted_res : Option (Nat × Nat)) (pix_fmt : PixelFormat)
    (ref_vfilter : Option String) : String :=
  self.assembleWith n_threads distorted_res pix_fmt ref_vfilter
    (VmafModel.from_args (self.augmentedArgs n_threads))

/-- Panic-aware embedding of `Vmaf::ffmpeg_lavfi`, threading the only
potentially panicking operation (`remove(0)` inside `VmafModel::from_args`)
through `Option`. -/
def Vmaf.ffmpeg_lavfiChecked (self : Vmaf) (n_threads : Nat)
    (distorted_res : Option (Nat × Nat)) (pix_fmt : PixelFormat)
    (ref_vfilter : Option String) : Option String :=
  (VmafModel.from_argsChecked (self.augmentedArgs n_threads)).map
    (self.assembleWith n_threads distorted_res pix_fmt ref_vfilter)

/-- Splits a character list at the first occurrence of `c`, dropping the
separator, mirroring Rust `str::split_once`. -/
def splitOnceChars (c : Char) : List Char → Option (List Char × List Char)
  | [] => none
  | a :: rest =>
    if a = c then some ([], rest)
    else (splitOnceChars c rest).map (fun p => (a :: p.1, p.2))

/-- Embeds Rust `str::split_once(c)`. -/
def splitOnceChar (s : String) (c : Char) : Option (String × String) :=
  (splitOnceChars c s.toList).map (fun p => (String.mk p.1, String.mk p.2))

/-- Embeds Rust `str::parse::<u32>()`: an optional leading plus sign, one or
more ASCII digits, and a value within the `u32` range. -/
def parseU32 (s : String) : Option Nat :=
  let ds := match s.toList with
    | '+' :: rest => rest
    | cs => cs
  if ds.isEmpty then none
  else if ds.all (fun c => c.isDigit) then
    let v := ds.foldl (fun acc c => acc * 10 + (c.toNat - 48)) 0
    if v < 4294967296 then some v else none
  else none

/-- The fixed parse-error message of `parse_vmaf_scale`. -/
def scaleArgErr : String :=
  "vmaf-scale must be \x27none\x27, \x27auto\x27 or WxH format e.g. \x271920x1080\x27"

/-- Embeds `parse_vmaf_scale`; the `anyhow` error is modelled as the context
message it carries. -/
def parse_vmaf_scale (vs : String) : Except String VmafScale :=
  if vs = "none" then Except.ok VmafScale.none
  else if vs = "auto" then Except.ok VmafScale.auto
  else
    match splitOnceChar vs 'x' with
    | none => Except.error scaleArgErr
    | some (w, h) =>
      match parseU32 w, parseU32 h with
      | some width, some height => Except.ok (VmafScale.custom width height)
      | _, _ => Except.error scaleArgErr

/-- Embeds `impl Display for VmafScale`. -/
def VmafScale.display : VmafScale → String
  | VmafScale.none => "none"
  | VmafScale.auto => "auto"
  | VmafScale.custom width height => toString width ++ "x" ++ toString height

/-- The set of strings actually accepted by `parse_vmaf_scale`: the two
keywords, or a first-`x` split whose two parts both parse as `u32`. -/
def rustAcceptedScaleForm (s : String) : Bool :=
  s == "none" || s == "auto" ||
    (match splitOnceChar s 'x' with
     | some (a, b) => (parseU32 a).isSome && (parseU32 b).isSome
     | none => false)

/-- Formalises the spec wording of the `ScalePolicy` textual micro-format:
`"none"`, `"auto"`, or `"<uint>x<uint>"`, where `<uint>` is a nonempty run
of decimal digits (a digit run contains no `x`, so the decomposition, when
it exists, is the split at the first `x`). -/
def specScaleTextForm (s : String) : Bool :=
  s == "none" || s == "auto" ||
    (match splitOnceChar s 'x' with
     | some (a, b) =>
       !a.isEmpty && !b.isEmpty
         && a.toList.all (fun c => c.isDigit) && b.toList.all (fun c => c.isDigit)
     | none => false)

/-- Restates the scale-policy decision in the spec's wording, for comparison
with `Vmaf.vf_scale`: `Auto` with a known small resolution minimally scales
to the model's box (an unspecified model counts as the 1k model), `Custom`
minimally scales to the custom box when the resolution is known, and with an
unknown resolution uses the custom dimensions directly.  Amendment forced by
the code: the direct dimensions go through the `u32 as i32` cast
(`u32AsI32`), so values of 2^31 and above wrap to negative numbers rather
than being taken verbatim. -/
def vfScaleSpec (policy : VmafScale) (model : Option VmafModel)
    (res : Option (Nat × Nat)) : Option (Int × Int) :=
  match policy with
  | VmafScale.none => none
  | VmafScale.auto =>
    match res with
    | none => none
    | some (w, h) =>
      match model.getD VmafModel.vmaf1K with
      | VmafModel.vmaf1K =>
        if w < 1728 ∧ h < 972 then some (minimally_scale (w, h) (1920, 1080)) else none
      | VmafModel.vmaf4K =>
        if w < 3456 ∧ h < 1944 then some (minimally_scale (w, h) (3840, 2160)) else none
      | VmafModel.custom => none
  | VmafScale.custom width height =>
    match res with
    | some (w, h) => some (minimally_scale (w, h) (width, height))
    | none => some (u32AsI32 width, u32AsI32 height)

example : mkRat 1 2 < mkRat 2 3 := by decide

example :
    (Vmaf.mk ["n_threads=5", "n_subsample=4"] VmafScale.auto none false).ffmpeg_lavfi
      8 none PixelFormat.yuv420p (some "scale=1280:-1,fps=24")
    = "[0:v]format=yuv420p,settb=AVTB,setpts=N/FRAME_RATE/TB[dis];[1:v]format=yuv420p,scale=1280:-1,fps=24,settb=AVTB,setpts=N/FRAME_RATE/TB[ref];[dis][ref]libvmaf=shortest=true:ts_sync_mode=nearest:n_threads=5:n_subsample=4" := by
  decide

example :
    (Vmaf.mk ["n_threads=5", "n_subsample=4"] VmafScale.auto none false).ffmpeg_lavfi
      8 (some (1280, 720)) PixelFormat.yuv420p none
    = "[0:v]format=yuv420p,scale=1920:-1:flags=bicubic,settb=AVTB,setpts=N/FRAME_RATE/TB[dis];[1:v]format=yuv420p,scale=1920:-1:flags=bicubic,settb=AVTB,setpts=N/FRAME_RATE/TB[ref];[dis][ref]libvmaf=shortest=true:ts_sync_mode=nearest:n_threads=5:n_subsample=4" := by
  decide

example :
    (Vmaf.mk ["n_threads=5", "n_subsample=4"] VmafScale.auto none false).ffmpeg_lavfi
      8 (some (3840, 2160)) PixelFormat.yuv420p none
    = "[0:v]format=yuv420p,settb=AVTB,setpts=N/FRAME_RATE/TB[dis];[1:v]format=yuv420p,settb=AVTB,setpts=N/FRAME_RATE/TB[ref];[dis][ref]libvmaf=shortest=true:ts_sync_mode=nearest:n_threads=5:n_subsample=4:model=version=vmaf_4k_v0.6.1" := by
  decide

/-! Helper lemmas shared by the claim theorems. -/

/-- The model resolver returns `none` exactly when no token mentions
`"model"`. -/
theorem from_args_eq_none_iff (args : List String) :
    VmafModel.from_args args = none
      ↔ (args.all fun a => !hasSubstr a "model") = true := by
  have hfilter : (args.filter (fun v => hasSubstr v "model") = [])
      ↔ (args.all fun a => !hasSubstr a "model") = true := by
    rw [List.filter_eq_nil_iff, List.all_eq_true]
    simp
  rw [← hfilter]
  unfold VmafModel.from_args
  rcases h : args.filter (fun v => hasSubstr v "model") with _ | ⟨t, ts⟩
  · simp
  · rcases ts with _ | ⟨u, us⟩ <;> simp

/-- The panic-aware model resolver never takes the panic branch: it agrees
with the total resolver on every argument list. -/
theorem from_argsChecked_eq (args : List String) :
    VmafModel.from_argsChecked args = some (VmafModel.from_args args) := by
  unfold VmafModel.from_argsChecked VmafModel.from_args
  rcases h : args.filter (fun v => hasSubstr v "model") with _ | ⟨t, ts⟩
  · rfl
  · rcases ts with _ | ⟨u, us⟩ <;> rfl

/-- A token ending in the 4k model version string does not end in the 1k
model version string (the two suffixes disagree on their last 19
characters). -/
theorem not_ends_1k_of_ends_4k (t : String)
    (h : strEndsWith t "version=vmaf_4k_v0.6.1" = true) :
    strEndsWith t "version=vmaf_v0.6.1" = false := by
  by_contra hc
  rw [Bool.not_eq_false] at hc
  have h4 : "version=vmaf_4k_v0.6.1".toList <:+ t.toList :=
    List.isSuffixOf_iff_suffix.mp h
  have h1 : "version=vmaf_v0.6.1".toList <:+ t.toList :=
    List.isSuffixOf_iff_suffix.mp hc
  have hle : ("version=vmaf_v0.6.1".toList).length
      ≤ ("version=vmaf_4k_v0.6.1".toList).length := by decide
  have : "version=vmaf_v0.6.1".toList <:+ "version=vmaf_4k_v0.6.1".toList :=
    List.suffix_of_suffix_length_le h1 h4 hle
  revert this
  decide

/-- In cuda mode the effective pixel format is always `yuv420p`. -/
theorem effPixFmt_cuda (v : Vmaf) (pix : PixelFormat) (hc : v.cuda = true) :
    v.effPixFmt pix = PixelFormat.yuv420p := by
  cases pix <;> simp [Vmaf.effPixFmt, hc]

/-- The graph prelude depends on the caller's pixel format only through the
effective pixel format. -/
theorem graphPreM_pix_congr (v : Vmaf) (m : Option VmafModel)
    (res : Option (Nat × Nat)) (p1 p2 : PixelFormat) (r : Option String)
    (h : v.effPixFmt p1 = v.effPixFmt p2) :
    v.graphPreM m res p1 r = v.graphPreM m res p2 r := by
  simp only [Vmaf.graphPreM, h]

/-- Characterization of the fuel-driven binary logarithm. -/
theorem log2Fuel_spec : ∀ (fuel n : Nat), 1 ≤ n → n < 2 ^ fuel →
    2 ^ log2Fuel fuel n ≤ n ∧ n < 2 ^ (log2Fuel fuel n + 1) := by
  intro fuel
  induction fuel with
  | zero =>
    intro n h1 h2
    simp at h2
    omega
  | succ fuel ih =>
    intro n h1 h2
    by_cases h : 2 ≤ n
    · have hn1 : 1 ≤ n / 2 := by omega
      have hn2 : n / 2 < 2 ^ fuel := by
        have h3 : n < 2 ^ fuel * 2 := by
          rw [← pow_succ]
          exact h2
        omega
      obtain ⟨hl, hr⟩ := ih (n / 2) hn1 hn2
      have heq : log2Fuel (fuel + 1) n = log2Fuel fuel (n / 2) + 1 := by
        simp only [log2Fuel]
        rw [if_pos h]
      rw [heq]
      constructor
      · rw [pow_succ]
        omega
      · rw [pow_succ]
        omega
    · have heq : log2Fuel (fuel + 1) n = 0 := by
        simp only [log2Fuel]
        rw [if_neg h]
      rw [heq]
      refine ⟨by simpa using h1, ?_⟩
      have hn2 : n < 2 := by omega
      simpa using hn2

/-- Characterization of `natLog2` on arguments below `2 ^ 128`. -/
theorem natLog2_spec (n : Nat) (h1 : 1 ≤ n) (h2 : n < 2 ^ 128) :
    2 ^ natLog2 n ≤ n ∧ n < 2 ^ (natLog2 n + 1) :=
  log2Fuel_spec 128 n h1 h2

/-- Characterization of the biased exponent: `2 ^ f64Exp a b ≤ a * 2^64 / b
< 2 ^ (f64Exp a b + 1)` in exact cross-multiplied form, for `u32`-range
operands. -/
theorem f64Exp_spec (a b : Nat) (ha : 1 ≤ a) (hb : 1 ≤ b)
    (hau : a < 2 ^ 32) (hbu : b < 2 ^ 32) :
    b * 2 ^ f64Exp a b ≤ a * 2 ^ 64 ∧ a * 2 ^ 64 < b * 2 ^ (f64Exp a b + 1) := by
  have hb0 : 0 < b := hb
  have hxge : b ≤ a * 2 ^ 64 := by
    calc b ≤ 2 ^ 32 := le_of_lt hbu
      _ ≤ 2 ^ 64 := by norm_num
      _ ≤ a * 2 ^ 64 := Nat.le_mul_of_pos_left _ ha
  have hx1 : 1 ≤ a * 2 ^ 64 / b := (Nat.one_le_div_iff hb0).mpr hxge
  have hx2 : a * 2 ^ 64 / b < 2 ^ 128 := by
    have h1 : a * 2 ^ 64 / b ≤ a * 2 ^ 64 := Nat.div_le_self _ _
    have h2 : a * 2 ^ 64 < 2 ^ 32 * 2 ^ 64 := mul_lt_mul_of_pos_right hau (by positivity)
    have h3 : (2 : ℕ) ^ 32 * 2 ^ 64 < 2 ^ 128 := by norm_num
    omega
  obtain ⟨hlow, hhigh⟩ := natLog2_spec (a * 2 ^ 64 / b) hx1 hx2
  constructor
  · have h4 := (Nat.le_div_iff_mul_le hb0).mp hlow
    calc b * 2 ^ f64Exp a b = 2 ^ f64Exp a b * b := by ring
      _ ≤ a * 2 ^ 64 := h4
  · have h4 := (Nat.div_lt_iff_lt_mul hb0).mp hhigh
    calc a * 2 ^ 64 < 2 ^ (f64Exp a b + 1) * b := h4
      _ = b * 2 ^ (f64Exp a b + 1) := by ring

/-- The biased exponent stays at or below 95 for `u32`-range operands. -/
theorem f64Exp_le (a b : Nat) (ha : 1 ≤ a) (hb : 1 ≤ b)
    (hau : a < 2 ^ 32) (hbu : b < 2 ^ 32) : f64Exp a b ≤ 95 := by
  obtain ⟨clow, _⟩ := f64Exp_spec a b ha hb hau hbu
  have h1 : 2 ^ f64Exp a b ≤ a * 2 ^ 64 := by
    calc 2 ^ f64Exp a b ≤ b * 2 ^ f64Exp a b := Nat.le_mul_of_pos_left _ hb
      _ ≤ a * 2 ^ 64 := clow
  have h2 : a * 2 ^ 64 < 2 ^ 96 := by
    calc a * 2 ^ 64 < 2 ^ 32 * 2 ^ 64 := mul_lt_mul_of_pos_right hau (by positivity)
      _ = 2 ^ 96 := by norm_num
  have h3 : (2 : ℕ) ^ f64Exp a b < 2 ^ 96 := lt_of_le_of_lt h1 h2
  have h4 := (Nat.pow_lt_pow_iff_right (by norm_num : 1 < 2)).mp h3
  omega

/-- The rounded significand lies in `[2 ^ 52, 2 ^ 53]` for `u32`-range
operands. -/
theorem f64Sig_bounds (a b : Nat) (ha : 1 ≤ a) (hb : 1 ≤ b)
    (hau : a < 2 ^ 32) (hbu : b < 2 ^ 32) :
    2 ^ 52 ≤ f64Sig a b ∧ f64Sig a b ≤ 2 ^ 53 := by
  have hb0 : 0 < b := hb
  obtain ⟨clow, chigh⟩ := f64Exp_spec a b ha hb hau hbu
  have he95 := f64Exp_le a b ha hb hau hbu
  have hpow : (2 : ℕ) ^ (116 - f64Exp a b) * 2 ^ f64Exp a b = 2 ^ 116 := by
    rw [← pow_add]
    congr 1
    omega
  have hpow2 : (2 : ℕ) ^ (f64Exp a b + 1) * 2 ^ 52 = 2 ^ 53 * 2 ^ f64Exp a b := by
    rw [← pow_add, ← pow_add]
    congr 1
    omega
  have hNlow : b * 2 ^ 52 ≤ a * 2 ^ (116 - f64Exp a b) := by
    have h1 : b * 2 ^ f64Exp a b * 2 ^ 52 ≤ a * 2 ^ 64 * 2 ^ 52 :=
      Nat.mul_le_mul_right _ clow
    have h3 : b * 2 ^ 52 * 2 ^ f64Exp a b ≤ a * 2 ^ (116 - f64Exp a b) * 2 ^ f64Exp a b := by
      calc b * 2 ^ 52 * 2 ^ f64Exp a b = b * 2 ^ f64Exp a b * 2 ^ 52 := by ring
        _ ≤ a * 2 ^ 64 * 2 ^ 52 := h1
        _ = a * (2 ^ 64 * 2 ^ 52) := by ring
        _ = a * 2 ^ 116 := by norm_num
        _ = a * (2 ^ (116 - f64Exp a b) * 2 ^ f64Exp a b) := by rw [hpow]
        _ = a * 2 ^ (116 - f64Exp a b) * 2 ^ f64Exp a b := by ring
    exact Nat.le_of_mul_le_mul_right h3 (by positivity)
  have hNhigh : a * 2 ^ (116 - f64Exp a b) < b * 2 ^ 53 := by
    have h1 : a * 2 ^ 64 * 2 ^ 52 < b * 2 ^ (f64Exp a b + 1) * 2 ^ 52 :=
      mul_lt_mul_of_pos_right chigh (by positivity)
    have h3 : a * 2 ^ (116 - f64Exp a b) * 2 ^ f64Exp a b < b * 2 ^ 53 * 2 ^ f64Exp a b := by
      calc a * 2 ^ (116 - f64Exp a b) * 2 ^ f64Exp a b
          = a * (2 ^ (116 - f64Exp a b) * 2 ^ f64Exp a b) := by ring
        _ = a * 2 ^ 116 := by rw [hpow]
        _ = a * (2 ^ 64 * 2 ^ 52) := by norm_num
        _ = a * 2 ^ 64 * 2 ^ 52 := by ring
        _ < b * 2 ^ (f64Exp a b + 1) * 2 ^ 52 := h1
        _ = b * (2 ^ (f64Exp a b + 1) * 2 ^ 52) := by ring
        _ = b * (2 ^ 53 * 2 ^ f64Exp a b) := by rw [hpow2]
        _ = b * 2 ^ 53 * 2 ^ f64Exp a b := by ring
    exact lt_of_mul_lt_mul_right h3 (by positivity)
  have hqlow : 2 ^ 52 ≤ a * 2 ^ (116 - f64Exp a b) / b := by
    refine (Nat.le_div_iff_mul_le hb0).mpr ?_
    calc (2 : ℕ) ^ 52 * b = b * 2 ^ 52 := by ring
      _ ≤ a * 2 ^ (116 - f64Exp a b) := hNlow
  have hqhigh : a * 2 ^ (116 - f64Exp a b) / b < 2 ^ 53 := by
    refine (Nat.div_lt_iff_lt_mul hb0).mpr ?_
    calc a * 2 ^ (116 - f64Exp a b) < b * 2 ^ 53 := hNhigh
      _ = 2 ^ 53 * b := by ring
  have hsig : f64Sig a b
      = (if b < 2 * (a * 2 ^ (116 - f64Exp a b) % b)
            ∨ (2 * (a * 2 ^ (116 - f64Exp a b) % b) = b
                ∧ (a * 2 ^ (116 - f64Exp a b) / b) % 2 = 1)
          then a * 2 ^ (116 - f64Exp a b) / b + 1
          else a * 2 ^ (116 - f64Exp a b) / b) := rfl
  by_cases hcond : b < 2 * (a * 2 ^ (116 - f64Exp a b) % b)
      ∨ (2 * (a * 2 ^ (116 - f64Exp a b) % b) = b
          ∧ (a * 2 ^ (116 - f64Exp a b) / b) % 2 = 1)
  · rw [hsig, if_pos hcond]
    omega
  · rw [hsig, if_neg hcond]
    omega

/-- Half-even rounding of scaled quotients is monotone. -/
theorem roundSig_mono (N1 D1 N2 D2 : Nat) (hD1 : 0 < D1) (hD2 : 0 < D2)
    (hle : N1 * D2 ≤ N2 * D1) :
    (if D1 < 2 * (N1 % D1) ∨ (2 * (N1 % D1) = D1 ∧ (N1 / D1) % 2 = 1)
      then N1 / D1 + 1 else N1 / D1)
    ≤ (if D2 < 2 * (N2 % D2) ∨ (2 * (N2 % D2) = D2 ∧ (N2 / D2) % 2 = 1)
      then N2 / D2 + 1 else N2 / D2) := by
  have hq : N1 / D1 ≤ N2 / D2 := by
    have h1 : N1 / D1 * D1 ≤ N1 := Nat.div_mul_le_self N1 D1
    have h3 : N1 / D1 * D2 * D1 ≤ N2 * D1 := by
      calc N1 / D1 * D2 * D1 = N1 / D1 * D1 * D2 := by ring
        _ ≤ N1 * D2 := Nat.mul_le_mul_right _ h1
        _ ≤ N2 * D1 := hle
    have h4 : N1 / D1 * D2 ≤ N2 := Nat.le_of_mul_le_mul_right h3 hD1
    exact (Nat.le_div_iff_mul_le hD2).mpr h4
  rcases eq_or_lt_of_le hq with hqeq | hqlt
  · have hd1 : D1 * (N1 / D1) + N1 % D1 = N1 := Nat.div_add_mod N1 D1
    have hd2 : D2 * (N2 / D2) + N2 % D2 = N2 := Nat.div_add_mod N2 D2
    have hr : (N1 % D1) * D2 ≤ (N2 % D2) * D1 := by
      have e1 : N1 * D2 = D1 * D2 * (N1 / D1) + (N1 % D1) * D2 := by
        conv_lhs => rw [← hd1]
        ring
      have e2 : N2 * D1 = D1 * D2 * (N2 / D2) + (N2 % D2) * D1 := by
        conv_lhs => rw [← hd2]
        ring
      rw [e1, e2, hqeq] at hle
      exact Nat.le_of_add_le_add_left hle
    split_ifs with hc1 hc2 hc2
    · omega
    · exfalso
      push_neg at hc2
      rcases hc1 with hgt | ⟨htie, hodd⟩
      · have k1 : D1 * D2 < 2 * (N1 % D1) * D2 := mul_lt_mul_of_pos_right hgt hD2
        have k2 : 2 * (N1 % D1) * D2 ≤ 2 * (N2 % D2) * D1 := by
          calc 2 * (N1 % D1) * D2 = 2 * ((N1 % D1) * D2) := by ring
            _ ≤ 2 * ((N2 % D2) * D1) := Nat.mul_le_mul_left _ hr
            _ = 2 * (N2 % D2) * D1 := by ring
        have k3 : D2 * D1 < 2 * (N2 % D2) * D1 := by
          calc D2 * D1 = D1 * D2 := by ring
            _ < 2 * (N1 % D1) * D2 := k1
            _ ≤ 2 * (N2 % D2) * D1 := k2
        have k4 : D2 < 2 * (N2 % D2) := lt_of_mul_lt_mul_right k3 (Nat.zero_le D1)
        omega
      · have hr1pos : 0 < N1 % D1 := by omega
        have k5 : (N1 % D1) * D2 ≤ (N2 % D2) * (2 * (N1 % D1)) := by
          rw [htie]
          exact hr
        have k6 : D2 ≤ 2 * (N2 % D2) := by
          have k7 : (N1 % D1) * D2 ≤ (N1 % D1) * (2 * (N2 % D2)) := by
            calc (N1 % D1) * D2 ≤ (N2 % D2) * (2 * (N1 % D1)) := k5
              _ = (N1 % D1) * (2 * (N2 % D2)) := by ring
          exact Nat.le_of_mul_le_mul_left k7 hr1pos
        have k8 : 2 * (N2 % D2) = D2 := by omega
        have k9 := hc2.2 k8
        rw [hqeq] at hodd
        exact k9 hodd
    · omega
    · omega
  · split_ifs <;> omega

/-- Monotonicity of the rounded significand at equal exponents. -/
theorem f64Sig_mono_of_exp_eq (a1 b1 a2 b2 : Nat) (hb1 : 0 < b1) (hb2 : 0 < b2)
    (heq : f64Exp a1 b1 = f64Exp a2 b2) (hle : a1 * b2 ≤ a2 * b1) :
    f64Sig a1 b1 ≤ f64Sig a2 b2 := by
  have hN : (a1 * 2 ^ (116 - f64Exp a1 b1)) * b2 ≤ (a2 * 2 ^ (116 - f64Exp a2 b2)) * b1 := by
    rw [← heq]
    calc a1 * 2 ^ (116 - f64Exp a1 b1) * b2 = a1 * b2 * 2 ^ (116 - f64Exp a1 b1) := by ring
      _ ≤ a2 * b1 * 2 ^ (116 - f64Exp a1 b1) := Nat.mul_le_mul_right _ hle
      _ = a2 * 2 ^ (116 - f64Exp a1 b1) * b1 := by ring
  exact roundSig_mono (a1 * 2 ^ (116 - f64Exp a1 b1)) b1
    (a2 * 2 ^ (116 - f64Exp a2 b2)) b2 hb1 hb2 hN

/-- The piecewise definition of `roundF64Pos` collapses to its normal-range
branch once the exponent is known to be below 116. -/
theorem roundF64Pos_eq (a b : Nat) (h : f64Exp a b < 116) :
    roundF64Pos a b = mkRat (f64Sig a b) (2 ^ (116 - f64Exp a b)) := by
  have hno : ¬ 116 ≤ f64Exp a b := by omega
  unfold roundF64Pos
  rw [if_neg hno]

/-- A rounded positive quotient is positive. -/
theorem roundF64Pos_pos (a b : Nat) (ha : 1 ≤ a) (hb : 1 ≤ b)
    (hau : a < 2 ^ 32) (hbu : b < 2 ^ 32) : 0 < roundF64Pos a b := by
  rw [roundF64Pos_eq a b (by have := f64Exp_le a b ha hb hau hbu; omega),
    Rat.mkRat_eq_div]
  apply div_pos
  · have h1 := (f64Sig_bounds a b ha hb hau hbu).1
    have h0 : 0 < f64Sig a b := lt_of_lt_of_le (by positivity) h1
    exact_mod_cast h0
  · have h0 : (0 : ℕ) < 2 ^ (116 - f64Exp a b) := by positivity
    exact_mod_cast h0

/-- Monotonicity of the binary64 rounded quotient in the exact quotient,
over `u32`-range operands. -/
theorem roundF64Pos_mono (a1 b1 a2 b2 : Nat)
    (ha1 : 1 ≤ a1) (hb1 : 1 ≤ b1) (ha2 : 1 ≤ a2) (hb2 : 1 ≤ b2)
    (ha1u : a1 < 2 ^ 32) (hb1u : b1 < 2 ^ 32) (ha2u : a2 < 2 ^ 32) (hb2u : b2 < 2 ^ 32)
    (hle : a1 * b2 ≤ a2 * b1) :
    roundF64Pos a1 b1 ≤ roundF64Pos a2 b2 := by
  obtain ⟨c1low, c1high⟩ := f64Exp_spec a1 b1 ha1 hb1 ha1u hb1u
  obtain ⟨c2low, c2high⟩ := f64Exp_spec a2 b2 ha2 hb2 ha2u hb2u
  have he1 := f64Exp_le a1 b1 ha1 hb1 ha1u hb1u
  have he2 := f64Exp_le a2 b2 ha2 hb2 ha2u hb2u
  have hee : f64Exp a1 b1 ≤ f64Exp a2 b2 := by
    by_contra hc
    push_neg at hc
    have k1 : b1 * 2 ^ f64Exp a1 b1 * b2 ≤ a1 * 2 ^ 64 * b2 :=
      Nat.mul_le_mul_right _ c1low
    have k2 : a1 * 2 ^ 64 * b2 ≤ a2 * 2 ^ 64 * b1 := by
      calc a1 * 2 ^ 64 * b2 = a1 * b2 * 2 ^ 64 := by ring
        _ ≤ a2 * b1 * 2 ^ 64 := Nat.mul_le_mul_right _ hle
        _ = a2 * 2 ^ 64 * b1 := by ring
    have k3 : a2 * 2 ^ 64 * b1 < b2 * 2 ^ (f64Exp a2 b2 + 1) * b1 :=
      mul_lt_mul_of_pos_right c2high hb1
    have k4 : b1 * b2 * 2 ^ f64Exp a1 b1 < b1 * b2 * 2 ^ (f64Exp a2 b2 + 1) := by
      calc b1 * b2 * 2 ^ f64Exp a1 b1 = b1 * 2 ^ f64Exp a1 b1 * b2 := by ring
        _ ≤ a1 * 2 ^ 64 * b2 := k1
        _ ≤ a2 * 2 ^ 64 * b1 := k2
        _ < b2 * 2 ^ (f64Exp a2 b2 + 1) * b1 := k3
        _ = b1 * b2 * 2 ^ (f64Exp a2 b2 + 1) := by ring
    have k5 : (2 : ℕ) ^ f64Exp a1 b1 < 2 ^ (f64Exp a2 b2 + 1) :=
      Nat.lt_of_mul_lt_mul_left k4
    have k6 := (Nat.pow_lt_pow_iff_right (by norm_num : 1 < 2)).mp k5
    omega
  have hd1pos : (0 : ℚ) < ((2 ^ (116 - f64Exp a1 b1) : ℕ) : ℚ) := by
    have h0 : (0 : ℕ) < 2 ^ (116 - f64Exp a1 b1) := by positivity
    exact_mod_cast h0
  have hd2pos : (0 : ℚ) < ((2 ^ (116 - f64Exp a2 b2) : ℕ) : ℚ) := by
    have h0 : (0 : ℕ) < 2 ^ (116 - f64Exp a2 b2) := by positivity
    exact_mod_cast h0
  rcases eq_or_lt_of_le hee with heq | hlt
  · have hn := f64Sig_mono_of_exp_eq a1 b1 a2 b2 hb1 hb2 heq hle
    rw [roundF64Pos_eq a1 b1 (by omega), roundF64Pos_eq a2 b2 (by omega),
      Rat.mkRat_eq_div, Rat.mkRat_eq_div, heq,
      div_le_div_iff₀ hd2pos hd2pos]
    have hnat : f64Sig a1 b1 * 2 ^ (116 - f64Exp a2 b2)
        ≤ f64Sig a2 b2 * 2 ^ (116 - f64Exp a2 b2) := Nat.mul_le_mul_right _ hn
    exact_mod_cast hnat
  · obtain ⟨_, hn1high⟩ := f64Sig_bounds a1 b1 ha1 hb1 ha1u hb1u
    obtain ⟨hn2low, _⟩ := f64Sig_bounds a2 b2 ha2 hb2 ha2u hb2u
    rw [roundF64Pos_eq a1 b1 (by omega), roundF64Pos_eq a2 b2 (by omega),
      Rat.mkRat_eq_div, Rat.mkRat_eq_div,
      div_le_div_iff₀ hd1pos hd2pos]
    have hnat : f64Sig a1 b1 * 2 ^ (116 - f64Exp a2 b2)
        ≤ f64Sig a2 b2 * 2 ^ (116 - f64Exp a1 b1) := by
      calc f64Sig a1 b1 * 2 ^ (116 - f64Exp a2 b2)
          ≤ 2 ^ 53 * 2 ^ (116 - f64Exp a2 b2) := Nat.mul_le_mul_right _ hn1high
        _ = 2 ^ (53 + (116 - f64Exp a2 b2)) := by rw [← pow_add]
        _ ≤ 2 ^ (52 + (116 - f64Exp a1 b1)) :=
            Nat.pow_le_pow_right (by norm_num) (by omega)
        _ = 2 ^ 52 * 2 ^ (116 - f64Exp a1 b1) := by rw [← pow_add]
        _ ≤ f64Sig a2 b2 * 2 ^ (116 - f64Exp a1 b1) := Nat.mul_le_mul_right _ hn2low
    exact_mod_cast hnat

/-- When the program's `f64` comparison chooses the vertical branch on a
positive `u32`-range box, the exact cross-multiplied comparison follows. -/
theorem divF64_gt_cross (fw fh tw th : Nat)
    (htw : 0 < tw) (hth : 0 < th)
    (hfw : fw < 2 ^ 32) (hfh : fh < 2 ^ 32) (htwu : tw < 2 ^ 32) (hthu : th < 2 ^ 32)
    (hgt : F64.gt (divF64 fh th) (divF64 fw tw) = true) :
    fw * th < fh * tw := by
  have hth0 : ¬ th = 0 := by omega
  have htw0 : ¬ tw = 0 := by omega
  unfold divF64 at hgt
  rw [if_neg hth0, if_neg htw0] at hgt
  by_cases hfh0 : fh = 0
  · exfalso
    subst hfh0
    rw [if_pos rfl] at hgt
    by_cases hfw0 : fw = 0
    · rw [if_pos hfw0] at hgt
      simp [F64.gt] at hgt
    · rw [if_neg hfw0] at hgt
      simp only [F64.gt, decide_eq_true_eq] at hgt
      exact absurd hgt
        (not_lt.mpr (le_of_lt (roundF64Pos_pos fw tw (by omega) htw hfw htwu)))
  · by_cases hfw0 : fw = 0
    · subst hfw0
      simpa using Nat.mul_pos (by omega : 0 < fh) htw
    · rw [if_neg hfh0, if_neg hfw0] at hgt
      simp only [F64.gt, decide_eq_true_eq] at hgt
      by_contra hc
      push_neg at hc
      have hmono := roundF64Pos_mono fh th fw tw (by omega) hth (by omega) htw
        hfh hthu hfw htwu hc
      exact absurd hgt (not_lt.mpr hmono)

/-! Claim theorems. -/

/-- Claim C10: `Vmaf::is_default` returns true exactly when all four fields
hold their defaults simultaneously: `vmaf_args` empty, `vmaf_scale` equal to
`Auto`, `reference_vfilter` absent, and cuda mode off. -/
theorem is_default_iff (v : Vmaf) :
    v.is_default = true
      ↔ v.vmaf_args = [] ∧ v.vmaf_scale = VmafScale.auto
          ∧ v.reference_vfilter = none ∧ v.cuda = false := by
  simp [Vmaf.is_default, List.isEmpty_iff, Option.isNone_iff_eq_none,
    Bool.not_eq_true', and_assoc]

/-- Claim C6: the effective reference-side pre-filter is the per-call
`reference_vfilter` when present (ignoring the external `ref_vfilter`),
otherwise the external `ref_vfilter`, otherwise the empty string; a chosen
filter not ending in a comma gets exactly one comma appended, and a filter
already ending in a comma is used unchanged. -/
theorem refVf_precedence (v : Vmaf) (r : Option String) :
    (∀ vf, v.reference_vfilter = some vf → v.refVf r = commaTerminated vf)
    ∧ (v.reference_vfilter = none → ∀ vf, r = some vf → v.refVf r = commaTerminated vf)
    ∧ (v.reference_vfilter = none → r = none → v.refVf r = "")
    ∧ (∀ vf, strEndsWith vf "," = false → commaTerminated vf = vf ++ ",")
    ∧ (∀ vf, strEndsWith vf "," = true → commaTerminated vf = vf) := by
  refine ⟨?_, ?_, ?_, ?_, ?_⟩
  · intro vf h
    simp [Vmaf.refVf, h]
  · intro h vf hr
    simp [Vmaf.refVf, h, hr]
  · intro h hr
    simp [Vmaf.refVf, h, hr]
  · intro vf h
    simp [commaTerminated, h]
  · intro vf h
    simp [commaTerminated, h]

/-- Witness for claim C6: with a per-call reference filter present the
external filter is ignored, and the missing trailing comma is appended. -/
theorem refVf_precedence_witness :
    (Vmaf.mk [] VmafScale.auto (some "scale=2560:-1") false).refVf
        (some "scale_vaapi=w=2560:h=1280") = commaTerminated "scale=2560:-1"
    ∧ commaTerminated "scale=2560:-1" = "scale=2560:-1" ++ "," :=
  ⟨(refVf_precedence (Vmaf.mk [] VmafScale.auto (some "scale=2560:-1") false)
      (some "scale_vaapi=w=2560:h=1280")).1 "scale=2560:-1" rfl,
    (refVf_precedence (Vmaf.mk [] VmafScale.auto (some "scale=2560:-1") false)
      (some "scale_vaapi=w=2560:h=1280")).2.2.2.1 "scale=2560:-1" (by decide)⟩

/-- Claim C8: with cuda mode on, any supplied pixel format is silently
replaced by `yuv420p` in the emitted graph (the result equals the graph
built with `yuv420p`); with cuda mode off the supplied format is used
verbatim. -/
theorem gpu_pix_fmt_coercion (v : Vmaf) (n : Nat) (res : Option (Nat × Nat))
    (pix : PixelFormat) (r : Option String) :
    (v.cuda = true →
        v.effPixFmt pix = PixelFormat.yuv420p
        ∧ v.ffmpeg_lavfi n res pix r = v.ffmpeg_lavfi n res PixelFormat.yuv420p r)
    ∧ (v.cuda = false → v.effPixFmt pix = pix) := by
  constructor
  · intro hc
    refine ⟨effPixFmt_cuda v pix hc, ?_⟩
    simp only [Vmaf.ffmpeg_lavfi, Vmaf.assembleWith]
    rw [graphPreM_pix_congr v _ res pix PixelFormat.yuv420p r
      (by rw [effPixFmt_cuda v pix hc, effPixFmt_cuda v PixelFormat.yuv420p hc])]
  · intro hc
    simp [Vmaf.effPixFmt, hc]

/-- Witness for claim C8: a cuda-mode graph built with a 10-bit format
equals the graph built with `yuv420p`. -/
theorem gpu_pix_fmt_coercion_witness :
    (Vmaf.mk [] VmafScale.auto none true).effPixFmt PixelFormat.yuv420p10le
        = PixelFormat.yuv420p
    ∧ (Vmaf.mk [] VmafScale.auto none true).ffmpeg_lavfi 4 none
          PixelFormat.yuv420p10le none
        = (Vmaf.mk [] VmafScale.auto none true).ffmpeg_lavfi 4 none
          PixelFormat.yuv420p none :=
  (gpu_pix_fmt_coercion (Vmaf.mk [] VmafScale.auto none true) 4 none
    PixelFormat.yuv420p10le none).1 rfl

/-- Claim C5: with cuda off and no user token mentioning `n_threads`, the
parameter list gains exactly one token `n_threads=<N>` after all user
tokens, where `N` models the detected available parallelism (1 on detection
failure); an existing `n_threads` token suppresses the append, and cuda mode
never appends; the libvmaf parameter string joins exactly this list. -/
theorem n_threads_injection (v : Vmaf) (n : Nat) :
    (v.cuda = false → (v.vmaf_args.any fun a => hasSubstr a "n_threads") = false →
        v.augmentedArgs n = v.vmaf_args ++ ["n_threads=" ++ toString n]
        ∧ (v.augmentedArgs n).length = v.vmaf_args.length + 1)
    ∧ (v.cuda = false → (v.vmaf_args.any fun a => hasSubstr a "n_threads") = true →
        v.augmentedArgs n = v.vmaf_args)
    ∧ (v.cuda = true → v.augmentedArgs n = v.vmaf_args)
    ∧ v.lavfiBase n
        = (if v.cuda then "libvmaf_cuda=shortest=true:ts_sync_mode=nearest:"
            else "libvmaf=shortest=true:ts_sync_mode=nearest:")
          ++ String.intercalate ":" (v.augmentedArgs n) := by
  refine ⟨?_, ?_, ?_, rfl⟩
  · intro hc ha
    constructor
    · simp [Vmaf.augmentedArgs, hc, ha]
    · simp [Vmaf.augmentedArgs, hc, ha]
  · intro hc ha
    simp [Vmaf.augmentedArgs, hc, ha]
  · intro hc
    simp [Vmaf.augmentedArgs, hc]

/-- Witness for claim C5: a list without an `n_threads` token gains exactly
the default token at the end. -/
theorem n_threads_injection_witness :
    (Vmaf.mk ["log_path=output.xml"] VmafScale.auto none false).augmentedArgs 3
        = ["log_path=output.xml"] ++ ["n_threads=" ++ toString 3]
    ∧ ((Vmaf.mk ["log_path=output.xml"] VmafScale.auto none false).augmentedArgs 3).length
        = ["log_path=output.xml"].length + 1 :=
  (n_threads_injection (Vmaf.mk ["log_path=output.xml"] VmafScale.auto none false) 3).1
    rfl (by decide)

/-- Claim C4: the model resolver returns `None` on zero `model` tokens;
classifies a single `model` token by suffix (1k version string, then 4k
version string, otherwise custom); and returns custom on two or more
`model` tokens.  It is total, so malformed tokens cannot make it fail. -/
theorem from_args_classification (args : List String) :
    ((args.filter fun a => hasSubstr a "model") = [] → VmafModel.from_args args = none)
    ∧ (∀ t, (args.filter fun a => hasSubstr a "model") = [t] →
        (strEndsWith t "version=vmaf_v0.6.1" = true →
          VmafModel.from_args args = some VmafModel.vmaf1K)
        ∧ (strEndsWith t "version=vmaf_4k_v0.6.1" = true →
          VmafModel.from_args args = some VmafModel.vmaf4K)
        ∧ (strEndsWith t "version=vmaf_v0.6.1" = false →
          strEndsWith t "version=vmaf_4k_v0.6.1" = false →
          VmafModel.from_args args = some VmafModel.custom))
    ∧ (2 ≤ (args.filter fun a => hasSubstr a "model").length →
        VmafModel.from_args args = some VmafModel.custom) := by
  refine ⟨?_, ?_, ?_⟩
  · intro h
    unfold VmafModel.from_args
    rw [h]
  · intro t h
    refine ⟨?_, ?_, ?_⟩
    · intro h1
      unfold VmafModel.from_args
      rw [h]
      simp [h1]
    · intro h4
      unfold VmafModel.from_args
      rw [h]
      simp [h4, not_ends_1k_of_ends_4k t h4]
    · intro h1 h4
      unfold VmafModel.from_args
      rw [h]
      simp [h1, h4]
  · intro h
    unfold VmafModel.from_args
    rcases hf : args.filter (fun v => hasSubstr v "model") with _ | ⟨t, ts⟩
    · rw [hf] at h
      exact absurd h (by decide)
    · rcases ts with _ | ⟨u, us⟩
      · rw [hf] at h
        exact absurd h (by simp)
      · rfl

/-- Witness for claim C4: a single token ending in the 4k version string
resolves to the 4k model. -/
theorem from_args_classification_witness :
    VmafModel.from_args ["model=version=vmaf_4k_v0.6.1", "n_threads=5"]
        = some VmafModel.vmaf4K :=
  ((from_args_classification ["model=version=vmaf_4k_v0.6.1", "n_threads=5"]).2.1
    "model=version=vmaf_4k_v0.6.1" (by decide)).2.1 (by decide)

/-- Claim C1 (amended): `Vmaf::vf_scale` (with an unspecified model
defaulting to the 1k model) agrees with the spec's case analysis, with the
single amendment that with a `Custom` policy and unknown resolution the
custom dimensions pass through the `u32 as i32` cast instead of appearing
verbatim (values of 2^31 and above wrap to negative). -/
theorem vf_scale_spec (v : Vmaf) (model : Option VmafModel)
    (res : Option (Nat × Nat)) :
    v.vf_scale (model.getD VmafModel.vmaf1K) res = vfScaleSpec v.vmaf_scale model res := by
  obtain ⟨args, scale, rvf, cuda⟩ := v
  rcases model with _ | m
  · rcases res with _ | ⟨w, h⟩ <;> cases scale <;> simp [Vmaf.vf_scale, vfScaleSpec]
  · rcases res with _ | ⟨w, h⟩ <;> cases scale <;> cases m <;>
      simp [Vmaf.vf_scale, vfScaleSpec]

/-- Counterexample to claim C1 as stated: a custom scale policy of width
2^31 with unknown resolution returns the wrapped width -2147483648, not the
pair (2147483648, 720) verbatim. -/
theorem vf_scale_custom_wrap_cex :
    (Vmaf.mk [] (VmafScale.custom 2147483648 720) none false).vf_scale
        VmafModel.vmaf1K none = some (-2147483648, 720)
    ∧ ((-2147483648 : Int), (720 : Int)) ≠ ((2147483648 : Int), (720 : Int)) :=
  ⟨by decide, by decide⟩

/-- Claim C2: when no token of the augmented argument list mentions
`"model"` and the distorted resolution exceeds 2560x1440, the 4k model
token is appended after the libvmaf parameter section and the scale decision
uses the 4k model; whenever the defaulting step does not fire, nothing is
appended; the defaulting step fires exactly under that condition; and the
concrete 3840x2160 auto case yields the appended token and no scale filter. -/
theorem ffmpeg_lavfi_4k_model (v : Vmaf) (n : Nat) (pix : PixelFormat)
    (r : Option String) :
    (∀ w h, ((v.augmentedArgs n).all fun a => !hasSubstr a "model") = true →
        2560 < w → 1440 < h →
        v.ffmpeg_lavfi n (some (w, h)) pix r
          = v.graphPreM (some VmafModel.vmaf4K) (some (w, h)) pix r
            ++ v.lavfiBase n ++ ":model=version=vmaf_4k_v0.6.1")
    ∧ (∀ res, (resolveStep (VmafModel.from_args (v.augmentedArgs n)) res).2 = false →
        v.ffmpeg_lavfi n res pix r
          = v.graphPreM (resolveStep (VmafModel.from_args (v.augmentedArgs n)) res).1
              res pix r ++ v.lavfiBase n)
    ∧ (∀ res, (resolveStep (VmafModel.from_args (v.augmentedArgs n)) res).2 = true
        ↔ VmafModel.from_args (v.augmentedArgs n) = none
          ∧ ∃ w h, res = some (w, h) ∧ 2560 < w ∧ 1440 < h)
    ∧ (Vmaf.mk ["n_threads=5", "n_subsample=4"] VmafScale.auto none false).ffmpeg_lavfi
        8 (some (3840, 2160)) PixelFormat.yuv420p none
      = "[0:v]format=yuv420p,settb=AVTB,setpts=N/FRAME_RATE/TB[dis];[1:v]format=yuv420p,settb=AVTB,setpts=N/FRAME_RATE/TB[ref];[dis][ref]libvmaf=shortest=true:ts_sync_mode=nearest:n_threads=5:n_subsample=4:model=version=vmaf_4k_v0.6.1" := by
  refine ⟨?_, ?_, ?_, by decide⟩
  · intro w h hall hw hh
    have hnone : VmafModel.from_args (v.augmentedArgs n) = none :=
      (from_args_eq_none_iff _).mpr hall
    simp only [Vmaf.ffmpeg_lavfi, Vmaf.assembleWith, hnone, resolveStep]
    rw [if_pos ⟨hw, hh⟩]
    rfl
  · intro res h2
    simp only [Vmaf.ffmpeg_lavfi, Vmaf.assembleWith]
    simp [h2, String.append_empty]
  · intro res
    rcases hm : VmafModel.from_args (v.augmentedArgs n) with _ | m
    · rcases res with _ | ⟨w, h⟩
      · simp [resolveStep]
      · by_cases hcond : 2560 < w ∧ 1440 < h
        · simp [resolveStep, hcond]
          exact ⟨w, h, ⟨rfl, rfl⟩, hcond.1, hcond.2⟩
        · simp [resolveStep, hcond]
          omega
    · rcases res with _ | ⟨w, h⟩ <;> simp [resolveStep]

/-- Witness for claim C2: the 3008x1692 auto case (no model token) appends
the 4k model token. -/
theorem ffmpeg_lavfi_4k_model_witness :
    (Vmaf.mk ["n_threads=5"] VmafScale.auto none false).ffmpeg_lavfi 8
        (some (3008, 1692)) PixelFormat.yuv420p none
      = (Vmaf.mk ["n_threads=5"] VmafScale.auto none false).graphPreM
          (some VmafModel.vmaf4K) (some (3008, 1692)) PixelFormat.yuv420p none
        ++ (Vmaf.mk ["n_threads=5"] VmafScale.auto none false).lavfiBase 8
        ++ ":model=version=vmaf_4k_v0.6.1" :=
  (ffmpeg_lavfi_4k_model (Vmaf.mk ["n_threads=5"] VmafScale.auto none false) 8
    PixelFormat.yuv420p none).1 3008 1692 (by decide) (by decide) (by decide)

/-- Claim C3 (amended): `minimally_scale` compares the two factors computed
as IEEE-754 binary64 quotients (`divF64`, the exact semantics of the
source's `f64` division for `u32` operands, with positive infinity and NaN
at zero targets) and returns `(-1, target height)` exactly when the
`f64` comparison says the height factor exceeds the width factor, and
`(target width, -1)` otherwise, ties included; each emitted fixed dimension
passes through the `u32 as i32` cast (`u32AsI32`), which wraps values of
2^31 and above to negative.  On a positive `u32`-range box the vertical
branch implies the exact cross-multiplied comparison
`from_h * target_w > from_w * target_h`; the converse fails, because
distinct exact quotients can round to the same double: at source
`(701408733, 1134903170)` against box `(433494437, 701408733)` the exact
comparison is strict yet both quotients round to the same double and the
horizontal branch is taken; at the zero-width box `(0, 100)` the width
factor is positive infinity and the horizontal branch is taken. -/
theorem minimally_scale_spec (fw fh tw th : Nat) :
    (minimally_scale (fw, fh) (tw, th)
        = if F64.gt (divF64 fh th) (divF64 fw tw) then (-1, u32AsI32 th)
          else (u32AsI32 tw, -1))
    ∧ (0 < tw → 0 < th → fw < 2 ^ 32 → fh < 2 ^ 32 → tw < 2 ^ 32 → th < 2 ^ 32 →
        F64.gt (divF64 fh th) (divF64 fw tw) = true → fw * th < fh * tw)
    ∧ minimally_scale (701408733, 1134903170) (433494437, 701408733) = (433494437, -1)
    ∧ divF64 1134903170 701408733 = divF64 701408733 433494437
    ∧ 701408733 * 701408733 < 1134903170 * 433494437
    ∧ minimally_scale (100, 50) (0, 100) = (0, -1) := by
  refine ⟨rfl, ?_, by decide, by decide, by decide, by decide⟩
  intro htw hth hfw hfh htwu hthu hgt
  exact divF64_gt_cross fw fh tw th htw hth hfw hfh htwu hthu hgt

/-- Witness for claim C3: a 1280x720 source against a 1920x540 box takes the
vertical branch, and the cross-multiplied comparison follows. -/
theorem minimally_scale_spec_witness :
    minimally_scale (1280, 720) (1920, 540)
        = (if F64.gt (divF64 720 540) (divF64 1280 1920) then (-1, u32AsI32 540)
           else (u32AsI32 1920, -1))
    ∧ 1280 * 540 < 720 * 1920 :=
  ⟨(minimally_scale_spec 1280 720 1920 540).1,
   (minimally_scale_spec 1280 720 1920 540).2.1 (by decide) (by decide) (by decide)
     (by decide) (by decide) (by decide) (by decide)⟩

/-- Counterexample to claim C3 as stated: a tie at target box
2147483648x2147483648 returns the wrapped width -2147483648 rather than
(target width, -1) with the width verbatim. -/
theorem minimally_scale_wrap_cex :
    minimally_scale (1, 1) (2147483648, 2147483648) = (-2147483648, -1)
    ∧ ((-2147483648 : Int) ≠ (2147483648 : Int)) :=
  ⟨by decide, by decide⟩

/-- Claim C7 (amended): the textual form round-trips on `"none"`, `"auto"`
and `"1920x1080"`; `"bogus"` and `"1920-1080"` fail with the fixed message;
and parsing fails with that message exactly on strings that are neither of
the two keywords nor split at their first `x` into two components accepted
by `u32` parsing (decimal digits with an optional leading plus sign, value
below 2^32) — so, against the claim's wording, a component such as `"+10"`
is accepted even though it is not a plain digit string. -/
theorem parse_vmaf_scale_amended :
    (parse_vmaf_scale "none").map VmafScale.display = Except.ok "none"
    ∧ (parse_vmaf_scale "auto").map VmafScale.display = Except.ok "auto"
    ∧ (parse_vmaf_scale "1920x1080").map VmafScale.display = Except.ok "1920x1080"
    ∧ parse_vmaf_scale "bogus" = Except.error scaleArgErr
    ∧ parse_vmaf_scale "1920-1080" = Except.error scaleArgErr
    ∧ ∀ s, parse_vmaf_scale s = Except.error scaleArgErr
        ↔ rustAcceptedScaleForm s = false := by
  refine ⟨rfl, rfl, rfl, rfl, rfl, ?_⟩
  intro s
  unfold parse_vmaf_scale rustAcceptedScaleForm
  by_cases h1 : s = "none"
  · rw [if_pos h1]
    simp [h1]
  · rw [if_neg h1]
    by_cases h2 : s = "auto"
    · rw [if_pos h2]
      simp [h2]
    · rw [if_neg h2]
      have hb1 : (s == "none") = false := by simp [h1]
      have hb2 : (s == "auto") = false := by simp [h2]
      rcases hsp : splitOnceChar s 'x' with _ | ⟨a, b⟩
      · simp [hb1, hb2]
      · rcases hu : parseU32 a with _ | wa <;> rcases hv : parseU32 b with _ | wb <;>
          simp [hb1, hb2, hu, hv]

/-- Counterexample to claim C7 as stated: `"+10x10"` is not of the spec's
`<uint>x<uint>` textual form, yet parsing succeeds. -/
theorem parse_vmaf_scale_plus_cex :
    parse_vmaf_scale "+10x10" = Except.ok (VmafScale.custom 10 10)
    ∧ specScaleTextForm "+10x10" = false :=
  ⟨rfl, rfl⟩

/-- Claim C9: the graph builder has no failure path: the panic-aware
embedding of `ffmpeg_lavfi` (threading the one potentially panicking
operation, `remove(0)` in the model resolver, through `Option`) returns
`some` of the total builder's string on every input, and likewise for the
model resolver itself; the scale-policy computation is a total function by
construction. -/
theorem builder_total (v : Vmaf) (n : Nat) (res : Option (Nat × Nat))
    (pix : PixelFormat) (r : Option String) :
    v.ffmpeg_lavfiChecked n res pix r = some (v.ffmpeg_lavfi n res pix r)
    ∧ ∀ args, VmafModel.from_argsChecked args = some (VmafModel.from_args args) := by
  refine ⟨?_, from_argsChecked_eq⟩
  simp [Vmaf.ffmpeg_lavfiChecked, Vmaf.ffmpeg_lavfi, from_argsChecked_eq]

end AbAv1
